import Mathlib

/-!
Verification of the beatlejs service-container runtime against its
specification.  Each definition below is a shallow embedding of one
function of the TypeScript source (file and function named in the doc
comment); theorems at the end of the file settle the spec claims.
-/

namespace Beatle

/-! ### Data model: service definitions, instances, container state -/

/-- Embeds `BServiceClass` (service.ts): the immutable definition produced
by `Service`.  `blueprint` keeps the declared field names (the values are
produced by descriptor functions and are irrelevant to the claims). -/
structure BServiceClass where
  identifier : String
  order : Int := 0
  version : Nat := 1
  index : Nat := 0
  blueprint : List String := []
  deriving Repr, DecidableEq

/-- A live service instance.  JS object identity is modelled by a numeric
id drawn from the container's allocation counter; `methods` are the
callable fields visible on the instance (from the blueprint prototype). -/
structure BInstance where
  id : Nat
  methods : List String := []
  deriving Repr, DecidableEq

/-- Embeds `BServiceTuple` (container.ts): the class together with the
instance stored in the container's `services` map. -/
structure BServiceTuple where
  cls : BServiceClass
  inst : BInstance
  deriving Repr, DecidableEq

/-- Container state: the `services` JS `Map` is modelled as an
insertion-ordered association list, plus the allocation counter used to
model the identity of freshly created instances. -/
structure ContainerState where
  services : List (String × BServiceTuple) := []
  nextInstanceId : Nat := 0
  deriving Repr, DecidableEq

/-- Embeds the key computation shared by `getByClass` / `resolveByClass` /
`getByName` (container.ts): `scope ? identifier + "_" + scope : identifier`. -/
def mkKey (identifier : String) (scope : Option String) : String :=
  match scope with
  | some s => identifier ++ "_" ++ s
  | none => identifier

/-- Embeds `services.get(key)` on the container's services map. -/
def lookupService (s : ContainerState) (key : String) : Option BServiceTuple :=
  (s.services.find? (fun p => p.1 == key)).map Prod.snd

/-- Embeds `getByClass` (container.ts, lines 531-551): resolve-or-create.
On a miss it builds the instance via `makeService` (fresh identity, the
blueprint as prototype), fires every plugin's `onCreate` (not awaited;
the hook sequence is modelled separately by `onCreateCallSeq`), stores the
tuple under the key and returns the instance; on a hit it returns the
cached instance unchanged. -/
def getByClass (s : ContainerState) (target : BServiceClass) (scope : Option String) :
    BInstance × ContainerState :=
  let key := mkKey target.identifier scope
  match lookupService s key with
  | some impl => (impl.inst, s)
  | none =>
      let inst : BInstance := { id := s.nextInstanceId, methods := target.blueprint }
      (inst,
        { services := s.services ++ [(key, ⟨target, inst⟩)],
          nextInstanceId := s.nextInstanceId + 1 })

/-- Embeds `resolveByClass` (container.ts, lines 508-528): identical
control flow to `getByClass` except every `onCreate` hook is awaited
before the instance is returned. -/
def resolveByClass (s : ContainerState) (target : BServiceClass) (scope : Option String) :
    BInstance × ContainerState :=
  let key := mkKey target.identifier scope
  match lookupService s key with
  | some impl => (impl.inst, s)
  | none =>
      let inst : BInstance := { id := s.nextInstanceId, methods := target.blueprint }
      (inst,
        { services := s.services ++ [(key, ⟨target, inst⟩)],
          nextInstanceId := s.nextInstanceId + 1 })

/-! ### Service declaration (service.ts) -/

/-- The character class `[a-zA-Z0-9-.]` of the identifier-sanitising
regular expression in `Service`. -/
def isAllowedChar (c : Char) : Bool :=
  c.isAlphanum || c == '-' || c == '.'

/-- Embeds `identifier.replace(/[^a-zA-Z0-9-.]/, '')`: without the global
flag, `String.replace` removes only the first disallowed character. -/
def removeFirstDisallowed : List Char → List Char
  | [] => []
  | c :: cs => if isAllowedChar c then c :: removeFirstDisallowed cs else cs

def sanitizeIdentifier (s : String) : String :=
  ⟨removeFirstDisallowed s.data⟩

/-- Embeds `BServiceOptions` (service.ts). -/
structure BServiceOptions where
  identifier : String
  order : Option Int := none
  version : Option Nat := none
  deriving Repr, DecidableEq

/-- The module-level registries of service.ts / registries.ts
(`ServiceIdentifiers`, `ServiceRegistry`, the `counter` used for
`index`), plus the `console.error` log. -/
structure RegistryState where
  serviceIdentifiers : List (String × BServiceClass) := []
  serviceRegistry : List BServiceClass := []
  counter : Nat := 0
  errors : List String := []
  deriving Repr, DecidableEq

/-- Embeds `Service` (service.ts, lines 236-294): sanitises the
identifier; if it is already registered, logs a duplicate-identifier
error and returns the existing definition with the registry untouched;
otherwise builds the definition (blueprint built from the descriptor
fields), registers it in both registries and bumps the counter. -/
def Service (st : RegistryState) (options : BServiceOptions) (fields : List String) :
    BServiceClass × RegistryState :=
  let version := options.version.getD 1
  let identifier := sanitizeIdentifier options.identifier
  match (st.serviceIdentifiers.find? (fun p => p.1 == identifier)).map Prod.snd with
  | some existing =>
      (existing,
        { st with errors := st.errors ++
            [identifier ++ ": Duplicate identifier found, service identifiers must be unique."] })
  | none =>
      let order := options.order.getD 0
      let service : BServiceClass :=
        { identifier := identifier, order := order, version := version,
          index := st.counter, blueprint := fields }
      (service,
        { serviceIdentifiers := st.serviceIdentifiers ++ [(identifier, service)],
          serviceRegistry := st.serviceRegistry ++ [service],
          counter := st.counter + 1,
          errors := st.errors })

/-! ### Batch invocation (container.ts, invokeLinear) -/

/-- One insertion step of a stable sort on the definition's `order`.
`Array.prototype.sort` with the comparator
`(a, b) => (a.class.order ?? 0) - (b.class.order ?? 0)` is required by the
ECMAScript specification to be stable and to order by the comparator;
insertion placing each later element after every element whose order is
less than or equal to its own realises exactly that. -/
def insertOrdered (x : BServiceTuple) : List BServiceTuple → List BServiceTuple
  | [] => [x]
  | y :: ys =>
      if x.cls.order < y.cls.order then x :: y :: ys else y :: insertOrdered x ys

/-- Embeds `Array.from(services.values()).sort((a, b) => a.class.order - b.class.order)`
(container.ts, lines 450-452) as a stable sort of the insertion-ordered
service list. -/
def sortByOrder (l : List BServiceTuple) : List BServiceTuple :=
  l.foldl (fun acc x => insertOrdered x acc) []

/-- Embeds the guard `name in instance && typeof instance[name] === 'function'`. -/
def hasMethod (name : String) (t : BServiceTuple) : Bool :=
  t.inst.methods.contains name

/-- The instances on which `invokeLinear` calls the method, in call order. -/
def linearCallOrder (services : List (String × BServiceTuple)) (name : String) :
    List BServiceTuple :=
  (sortByOrder (services.map Prod.snd)).filter (hasMethod name)

/-- Embeds `invokeLinear` (container.ts, lines 448-464): sort the live
services ascending by the definition's order, then call `name` on each
instance that defines it.  The returned list is the sequence of instance
ids in invocation order; the `await` inside the loop makes each call
complete before the next begins, which the list order represents. -/
def invokeLinear (services : List (String × BServiceTuple)) (name : String) : List Nat :=
  (linearCallOrder services name).map (fun t => t.inst.id)

/-! ### Plugin pipeline (container.ts, getByClass and destroy loops) -/

/-- A registered plugin, identified by its registration index; the flags
record whether the factory's object defines the optional hooks. -/
structure BPluginSpec where
  id : Nat
  hasOnCreate : Bool := true
  hasOnDestroy : Bool := true
  deriving Repr, DecidableEq

/-- Embeds the `if (plugin.onCreate)` guard: the hook that gets called for
this plugin on instance creation, if any. -/
def onCreateHook (p : BPluginSpec) : Option Nat :=
  if p.hasOnCreate then some p.id else none

/-- Embeds the `if (plugin.onDestroy)` guard. -/
def onDestroyHook (p : BPluginSpec) : Option Nat :=
  if p.hasOnDestroy then some p.id else none

/-- Embeds the `onCreate` loop of `getByClass` / `makeService`
(container.ts, lines 538-543): `for (let i = 0; i < pluginCounter; i++)`
over `pluginArray`, calling `onCreate` when present. -/
def onCreateCallSeq (pluginArray : List BPluginSpec) : List Nat :=
  (List.range pluginArray.length).filterMap (fun i => pluginArray[i]?.bind onCreateHook)

/-- Embeds the `onDestroy` loop of the instance `destroy` method
(container.ts, lines 640-645): `for (let i = pluginCounter - 1; i >= 0; i--)`
over `pluginArray`, calling `onDestroy` when present. -/
def onDestroyCallSeq (pluginArray : List BPluginSpec) : List Nat :=
  ((List.range pluginArray.length).reverse).filterMap
    (fun i => pluginArray[i]?.bind onDestroyHook)

/-! ### Retry plugin (src/plugins/retry/private/plugins.ts) -/

inductive RetryCurve
  | linear
  | log
  deriving Repr, DecidableEq

/-- Embeds `BRetryOptions` (retry decorators): the decorator's own doc
comment reads "interval: The delay before the first retry". -/
structure BRetryOptions where
  interval : Nat
  shots : Nat
  retryCurve : RetryCurve
  maximumDelay : Nat
  deriving Repr, DecidableEq

inductive RetryOutcome
  | rejected
  | stillRunning
  deriving Repr, DecidableEq

/-- Embeds the delay update in the `catch` branch of `replacementFunction`:
`if (retryCurve === 'log') delay = Math.min(delay * 2, maximumDelay)`;
under 'linear' the delay is left unchanged. -/
def retryNextDelay (o : BRetryOptions) (delay : Nat) : Nat :=
  match o.retryCurve with
  | .log => min (delay * 2) o.maximumDelay
  | .linear => delay

/-- Embeds the stop guard `shots !== 0 && counter >= shots`. -/
def retryStopsNow (o : BRetryOptions) (counter : Nat) : Bool :=
  o.shots != 0 && o.shots ≤ counter

/-- Trace of `replacementFunction` applied to an underlying function that
always rejects (retry plugin, lines 34-70).  The state is the closure
state (attempt `counter`, current `delay`); `fuel` bounds how many
underlying invocations we observe.  Each step is one invocation followed
by the `catch` branch: stop and reject when the guard fires, otherwise
update the delay per the curve, schedule the next attempt after that
delay and increment the counter.  Returns (number of underlying
invocations, delays waited before each retry, outcome). -/
def retryTraceAux (o : BRetryOptions) : Nat → Nat → Nat → Nat × List Nat × RetryOutcome
  | _, _, 0 => (0, [], .stillRunning)
  | counter, delay, fuel + 1 =>
      if retryStopsNow o counter then (1, [], .rejected)
      else
        let d := retryNextDelay o delay
        let r := retryTraceAux o (counter + 1) d fuel
        (r.1 + 1, d :: r.2.1, r.2.2)

/-- The full trace of one call to the wrapped method: the closure starts
with `counter = 1` and `delay = interval`. -/
def retryTrace (o : BRetryOptions) (fuel : Nat) : Nat × List Nat × RetryOutcome :=
  retryTraceAux o 1 o.interval fuel

/-! ### Signal plugin (src/integrations/react/signal/plugins.ts) -/

/-- Embeds the event object built by the intercepted setter.  The field
`inst` is an `Option` because the declared `BNotifyEvent` type
(src/events.ts) requires an `instance` member, while the object literal
in the setter does not set one. -/
structure BNotifyEvent where
  type : Nat
  propertyName : String
  value : Int
  targetId : String
  inst : Option Nat
  isSimilar : Bool
  deriving Repr, DecidableEq

/-- Embeds `NotifyEventId` (src/events.ts). -/
def NotifyEventId : Nat := 0

/-- Modelled from src/events.ts: the declared `BNotifyEvent` type lists
`instance: BServiceInstance<unknown>` as a required member. -/
def eventHasDeclaredShape (e : BNotifyEvent) : Bool :=
  e.inst.isSome

/-- State touched by a signal-intercepted field: the property vault of
boxed values, and the two notification channels (the instance's own bus
and the shared container bus), each a list of delivered events. -/
structure SignalState where
  vault : List (String × Int)
  instanceEvents : List BNotifyEvent
  containerEvents : List BNotifyEvent
  deriving Repr, DecidableEq

/-- Embeds the setter installed by `SignalPlugin.onCreate` (signal
plugins.ts, lines 21-35): read the vault box (return silently if the
field was never seeded), build the event with `isSimilar` comparing the
old boxed value with the new one, write the vault, then dispatch the one
event on the container channel and on the instance channel. -/
def signalSet (targetId : String) (st : SignalState) (propertyName : String)
    (value : Int) : SignalState :=
  match (st.vault.find? (fun p => p.1 == propertyName)).map Prod.snd with
  | none => st
  | some old =>
      let event : BNotifyEvent :=
        { type := NotifyEventId, propertyName := propertyName, value := value,
          targetId := targetId, inst := none, isSimilar := old == value }
      { vault := st.vault.map (fun p => if p.1 == propertyName then (p.1, value) else p),
        instanceEvents := st.instanceEvents ++ [event],
        containerEvents := st.containerEvents ++ [event] }

/-- Embeds the getter: read the vault box. -/
def signalGet (st : SignalState) (propertyName : String) : Option Int :=
  (st.vault.find? (fun p => p.1 == propertyName)).map Prod.snd

/-! ### Event bus (eventBus.ts) -/

/-- A JS promise already resolved with a value: `Promise.resolve(v)` wraps
`v`; when `v` is a function, wrapping it does not call it. -/
structure JsPromise (α : Type) where
  val : α
  deriving Repr, DecidableEq

def promiseResolve {α : Type} (x : α) : JsPromise α :=
  ⟨x⟩

/-- The unary bus (eventBus.ts `UnaryBus`): one ordered listener list;
listeners are identified by numeric ids. -/
structure UnaryBusState where
  listeners : List Nat
  deriving Repr, DecidableEq

/-- Embeds `listeners.push(listener)` in `UnaryBus.subscribe`. -/
def unarySubscribe (st : UnaryBusState) (l : Nat) : UnaryBusState :=
  ⟨st.listeners ++ [l]⟩

/-- The inner arrow function of the unsubscribe closure: find the
listener's index and splice it out.  This is what removal would do if it
were ever executed. -/
def unaryRemovalThunk (l : Nat) (st : UnaryBusState) : UnaryBusState :=
  match st.listeners.indexOf? l with
  | none => st
  | some idx => ⟨st.listeners.eraseIdx idx⟩

/-- Embeds the function returned by `UnaryBus.subscribe`
(eventBus.ts, lines 107-116): calling it evaluates
`Promise.resolve(() => { ...splice... })`, which merely wraps the removal
thunk in a resolved promise and never invokes it, so the bus state is
returned unchanged. -/
def unaryUnsubscribe (l : Nat) (st : UnaryBusState) : UnaryBusState :=
  let _p : JsPromise (UnaryBusState → UnaryBusState) := promiseResolve (unaryRemovalThunk l)
  st

/-- Embeds `UnaryBus.dispatch`: every listener in the list receives the
message (all are started; the returned list is who gets invoked). -/
def unaryDispatch (st : UnaryBusState) : List Nat :=
  st.listeners

/-- The keyed bus (eventBus.ts `EventBus`): topic to ordered listener
list. -/
structure EventBusState where
  buckets : List (String × List Nat)
  deriving Repr, DecidableEq

/-- Embeds `getListeners`: fetch the bucket for a type, creating an empty
one if missing. -/
def getListeners (st : EventBusState) (type : String) : List Nat :=
  match (st.buckets.find? (fun p => p.1 == type)).map Prod.snd with
  | some bucket => bucket
  | none => []

/-- Embeds `EventBus.subscribe`: push the listener onto the type's
bucket. -/
def busSubscribe (st : EventBusState) (type : String) (l : Nat) : EventBusState :=
  match st.buckets.find? (fun p => p.1 == type) with
  | some _ =>
      ⟨st.buckets.map (fun p => if p.1 == type then (p.1, p.2 ++ [l]) else p)⟩
  | none => ⟨st.buckets ++ [(type, [l])]⟩

/-- The inner arrow function of the keyed unsubscribe closure. -/
def busRemovalThunk (type : String) (l : Nat) (st : EventBusState) : EventBusState :=
  ⟨st.buckets.map (fun p =>
    if p.1 == type then
      (p.1, match p.2.indexOf? l with
            | none => p.2
            | some idx => p.2.eraseIdx idx)
    else p)⟩

/-- Embeds the function returned by `EventBus.subscribe` (eventBus.ts,
lines 84-93): it returns `Promise.resolve(() => { ...splice... })` — the
removal logic is wrapped in a promise and never called, leaving the bus
unchanged. -/
def busUnsubscribe (type : String) (l : Nat) (st : EventBusState) : EventBusState :=
  let _p : JsPromise (EventBusState → EventBusState) :=
    promiseResolve (busRemovalThunk type l)
  st

/-- Embeds `EventBus.dispatch` for a type: every listener in that type's
bucket receives the message. -/
def busDispatch (st : EventBusState) (type : String) : List Nat :=
  getListeners st type

/-! ### Cache plugin (src/plugins/cache private plugins.ts, replaceFunction) -/

/-- A stored response: the serialized body plus the `expiresat` and
`lifespan` headers written by `replaceFunction`. -/
structure CacheEntry where
  body : String
  expiresat : Nat
  lifespan : Nat
  deriving Repr, DecidableEq

abbrev CacheStore := List (String × CacheEntry)

/-- Embeds the cache-hit test of `replaceFunction` (lines 42-53): a match
is served when its lifespan header equals the configured lifespan and its
`expiresat` header is still in the future. -/
def cacheLookup (store : CacheStore) (key : String) (lifespan now : Nat) : Option String :=
  match (store.find? (fun p => p.1 == key)).map Prod.snd with
  | none => none
  | some e => if e.lifespan = lifespan ∧ now < e.expiresat then some e.body else none

/-- Embeds `cacheBox.put(key, response)`: the Cache API replaces any entry
stored under the same request key, otherwise adds one. -/
def cachePut (store : CacheStore) (key : String) (e : CacheEntry) : CacheStore :=
  if (store.find? (fun p => p.1 == key)).isSome then
    store.map (fun p => if p.1 == key then (key, e) else p)
  else store ++ [(key, e)]

/-- The suspension phases of one call to `replaceFunction`: a call first
awaits the cache lookup; on a miss it invokes the underlying function and
is pending until that settles, at which point it stores the result and
resolves with it; on a hit it resolves with the cached body without
invoking the underlying function.  The function keeps no in-flight
registry, so the only state shared between overlapping calls is the cache
store itself. -/
inductive CallPhase
  | toLookup
  | pendingInvoke (result : String)
  | finished (invokedUnderlying : Bool) (value : String)
  deriving Repr, DecidableEq

/-- Per-call configuration: the generated cache request key, the
configured lifespan, and the value the underlying function resolves with
if it is invoked. -/
structure CallCfg where
  key : String
  lifespan : Nat
  result : String
  deriving Repr, DecidableEq

/-- One scheduler step of a call at the call's current suspension point. -/
def stepCall (now : Nat) (cfg : CallCfg) (store : CacheStore) :
    CallPhase → CallPhase × CacheStore
  | .toLookup =>
      match cacheLookup store cfg.key cfg.lifespan now with
      | some body => (.finished false body, store)
      | none => (.pendingInvoke cfg.result, store)
  | .pendingInvoke r =>
      (.finished true r, cachePut store cfg.key ⟨r, now + cfg.lifespan, cfg.lifespan⟩)
  | .finished b v => (.finished b v, store)

/-- The shared store and the two overlapping calls. -/
structure TwoCallState where
  store : CacheStore
  a : CallPhase
  b : CallPhase
  deriving Repr, DecidableEq

inductive WhichCall
  | A
  | B
  deriving Repr, DecidableEq

def stepSched (now : Nat) (cfgA cfgB : CallCfg) (s : TwoCallState) :
    WhichCall → TwoCallState
  | .A =>
      let r := stepCall now cfgA s.store s.a
      { s with a := r.1, store := r.2 }
  | .B =>
      let r := stepCall now cfgB s.store s.b
      { s with b := r.1, store := r.2 }

/-- Run an interleaving of the two calls.  A schedule starting A, B, ...
is exactly the claim's scenario: call B performs its lookup while call
A's underlying invocation is still pending. -/
def runSched (now : Nat) (cfgA cfgB : CallCfg) (s : TwoCallState) :
    List WhichCall → TwoCallState
  | [] => s
  | w :: ws => runSched now cfgA cfgB (stepSched now cfgA cfgB s w) ws

def invokedUnderlying : CallPhase → Bool
  | .finished b _ => b
  | _ => false

def resolvedValue : CallPhase → Option String
  | .finished _ v => some v
  | _ => none

/-- How many of the two calls ran the underlying function. -/
def underlyingInvocations (s : TwoCallState) : Nat :=
  (if invokedUnderlying s.a then 1 else 0) + (if invokedUnderlying s.b then 1 else 0)

/-! ### Instance reset (container.ts makeService, lines 624-633) -/

/-- A field value: a primitive, a reference to a (mutable) array object
on the heap, or `undefined`. -/
inductive JsVal
  | num (n : Int)
  | arrRef (a : Nat)
  | undefVal
  deriving Repr, DecidableEq

/-- The object heap holding array contents; addresses are list indices
and allocation appends. -/
structure Heap where
  arrays : List (List Int)
  deriving Repr, DecidableEq

def Heap.alloc (h : Heap) (xs : List Int) : Nat × Heap :=
  (h.arrays.length, ⟨h.arrays ++ [xs]⟩)

def Heap.get (h : Heap) (a : Nat) : List Int :=
  h.arrays.getD a []

def Heap.set (h : Heap) (a : Nat) (xs : List Int) : Heap :=
  ⟨h.arrays.set a xs⟩

/-- A service instance as `makeService` builds it:
`instance = Object.create(metadata.blueprint)` makes the blueprint the
prototype; `own` holds the instance's own enumerable properties, created
only by assignment. -/
structure InstanceState where
  blueprint : List (String × JsVal)
  own : List (String × JsVal)
  heap : Heap
  deriving Repr, DecidableEq

def lookupVal (l : List (String × JsVal)) (k : String) : JsVal :=
  ((l.find? (fun p => p.1 == k)).map Prod.snd).getD .undefVal

/-- Property read on the instance: own properties shadow the blueprint
prototype. -/
def readField (st : InstanceState) (k : String) : JsVal :=
  match (st.own.find? (fun p => p.1 == k)).map Prod.snd with
  | some v => v
  | none => lookupVal st.blueprint k

/-- Plain assignment `instance[k] = v`: creates or overwrites an own
enumerable property, shadowing the blueprint. -/
def assignField (st : InstanceState) (k : String) (v : JsVal) : InstanceState :=
  if (st.own.find? (fun p => p.1 == k)).isSome then
    { st with own := st.own.map (fun p => if p.1 == k then (k, v) else p) }
  else
    { st with own := st.own ++ [(k, v)] }

/-- In-place mutation `instance[k].push(x)`: mutates the array object the
field currently references (for a never-assigned field, the blueprint's
own array) without creating an own property. -/
def pushToField (st : InstanceState) (k : String) (x : Int) : InstanceState :=
  match readField st k with
  | .arrRef a => { st with heap := st.heap.set a (st.heap.get a ++ [x]) }
  | _ => st

/-- Embeds `structuredClone`: primitives are copied, arrays are
deep-copied into a freshly allocated heap cell. -/
def structuredCloneVal (h : Heap) : JsVal → JsVal × Heap
  | .num n => (.num n, h)
  | .undefVal => (.undefVal, h)
  | .arrRef a =>
      let r := h.alloc (h.get a)
      (.arrRef r.1, r.2)

/-- Embeds the body of the instance `reset` (container.ts lines 628-632):
`Object.keys(instance).forEach(key => instance[key] = structuredClone(metadata.blueprint[key]))`.
`Object.keys` enumerates the OWN enumerable properties only; own keys are
unique, so the forEach is the keywise pass below, each own property being
assigned a structured clone of the blueprint's value for that key. -/
def resetKeys (blueprint : List (String × JsVal)) :
    List (String × JsVal) → Heap → List (String × JsVal) × Heap
  | [], h => ([], h)
  | (k, _) :: rest, h =>
      let c := structuredCloneVal h (lookupVal blueprint k)
      let r := resetKeys blueprint rest c.2
      ((k, c.1) :: r.1, r.2)

def resetInstance (st : InstanceState) : InstanceState :=
  let r := resetKeys st.blueprint st.own st.heap
  { st with own := r.1, heap := r.2 }

/-- Observable content of a field value (references resolved through the
heap). -/
inductive JsObs
  | num (n : Int)
  | arr (xs : List Int)
  | undefVal
  deriving Repr, DecidableEq

def observeVal (h : Heap) : JsVal → JsObs
  | .num n => .num n
  | .undefVal => .undefVal
  | .arrRef a => .arr (h.get a)

def observeField (st : InstanceState) (k : String) : JsObs :=
  observeVal st.heap (readField st k)

def observeBlueprint (st : InstanceState) (k : String) : JsObs :=
  observeVal st.heap (lookupVal st.blueprint k)

/-- A value is well formed when any array reference points into the
heap. -/
def valWF (h : Heap) : JsVal → Bool
  | .arrRef a => decide (a < h.arrays.length)
  | _ => true

/-- Embeds the container's `reset(filter?)` (container.ts lines 467-481):
apply the instance `reset` to every service whose (class, instance) pair
passes the optional filter. -/
def containerReset (instances : List (BServiceClass × InstanceState))
    (filter : Option (BServiceClass → InstanceState → Bool)) :
    List (BServiceClass × InstanceState) :=
  instances.map (fun p =>
    match filter with
    | some f => if f p.1 p.2 then (p.1, resetInstance p.2) else p
    | none => (p.1, resetInstance p.2))

/-! ### Concrete inputs used by witnesses -/

def exService : BServiceClass := { identifier := "svc" }

def exRegistry : RegistryState :=
  { serviceIdentifiers := [("svc", exService)],
    serviceRegistry := [exService],
    counter := 1 }

/-- Three services declared in order A, B, C with orders 5, -1000, 0,
each defining a method `m` (the spec's `invokeLinear` example). -/
def exTupleA : BServiceTuple :=
  ⟨{ identifier := "A", order := 5, blueprint := ["m"] }, { id := 1, methods := ["m"] }⟩

def exTupleB : BServiceTuple :=
  ⟨{ identifier := "B", order := -1000, blueprint := ["m"] }, { id := 2, methods := ["m"] }⟩

def exTupleC : BServiceTuple :=
  ⟨{ identifier := "C", order := 0, blueprint := ["m"] }, { id := 3, methods := ["m"] }⟩

def exServices : List (String × BServiceTuple) :=
  [("A", exTupleA), ("B", exTupleB), ("C", exTupleC)]

/-- Three plugins registered in order 0, 1, 2, all with both hooks. -/
def exPlugins : List BPluginSpec := [⟨0, true, true⟩, ⟨1, true, true⟩, ⟨2, true, true⟩]

/-- Retry configuration of the spec's linear example. -/
def exRetryLinear : BRetryOptions :=
  { interval := 100, shots := 3, retryCurve := .linear, maximumDelay := 32000 }

/-- Retry configuration with the unlimited shot count. -/
def exRetryUnlimited : BRetryOptions :=
  { interval := 100, shots := 0, retryCurve := .linear, maximumDelay := 32000 }

/-- Retry configuration of the spec's log-curve example. -/
def exRetryLog : BRetryOptions :=
  { interval := 100, shots := 0, retryCurve := .log, maximumDelay := 300 }

/-- A signal-intercepted instance whose field `x` is seeded with 1. -/
def exSignalState : SignalState :=
  { vault := [("x", 1)], instanceEvents := [], containerEvents := [] }

/-- Cache call configuration shared by two concurrent calls with the same
arguments (hence the same generated cache key). -/
def exCacheCfg : CallCfg := { key := "k", lifespan := 1000, result := "v" }

/-- Instance whose blueprint declares a field `arr` defaulting to the
array `[1]` (heap cell 0) and which has never assigned to it. -/
def exResetState : InstanceState :=
  { blueprint := [("arr", .arrRef 0)], own := [], heap := ⟨[[1]]⟩ }

/-- Instance with a blueprint number field `n` defaulting to 5 that has
been reassigned to 9 (an own property), next to the `arr` default. -/
def exResetAssigned : InstanceState :=
  { blueprint := [("arr", .arrRef 0), ("n", .num 5)],
    own := [("n", .num 9)], heap := ⟨[[1]]⟩ }

-- ============================================================
-- Theorems
-- ============================================================

/-! ### Helper lemmas -/

theorem find?_append_of_none {α} (l₁ l₂ : List α) (p : α → Bool)
    (h : l₁.find? p = none) : (l₁ ++ l₂).find? p = l₂.find? p := by
  induction l₁ with
  | nil => simp
  | cons a l ih =>
      simp only [List.cons_append, List.find?] at h ⊢
      cases hpa : p a with
      | true => simp [hpa] at h
      | false =>
          simp only [hpa] at h ⊢
          exact ih h

theorem insertOrdered_perm (x : BServiceTuple) :
    ∀ l : List BServiceTuple, List.Perm (insertOrdered x l) (x :: l)
  | [] => List.Perm.refl _
  | y :: ys => by
      unfold insertOrdered
      by_cases hxy : x.cls.order < y.cls.order
      · rw [if_pos hxy]
      · rw [if_neg hxy]
        exact ((insertOrdered_perm x ys).cons y).trans (List.Perm.swap x y ys)

theorem insertOrdered_pairwise (x : BServiceTuple) :
    ∀ l : List BServiceTuple,
      l.Pairwise (fun a b => a.cls.order ≤ b.cls.order) →
      (insertOrdered x l).Pairwise (fun a b => a.cls.order ≤ b.cls.order)
  | [], _ => by simp [insertOrdered]
  | y :: ys, h => by
      rw [List.pairwise_cons] at h
      obtain ⟨hy, hys⟩ := h
      unfold insertOrdered
      by_cases hxy : x.cls.order < y.cls.order
      · rw [if_pos hxy, List.pairwise_cons]
        refine ⟨?_, List.pairwise_cons.mpr ⟨hy, hys⟩⟩
        intro z hz
        rcases List.mem_cons.mp hz with rfl | hzys
        · exact le_of_lt hxy
        · exact le_trans (le_of_lt hxy) (hy z hzys)
      · rw [if_neg hxy, List.pairwise_cons]
        refine ⟨?_, insertOrdered_pairwise x ys hys⟩
        intro z hz
        rcases List.mem_cons.mp ((insertOrdered_perm x ys).mem_iff.mp hz) with rfl | hzys
        · exact le_of_not_lt hxy
        · exact hy z hzys

theorem insertOrdered_filter_order (k : Int) (x : BServiceTuple) :
    ∀ l : List BServiceTuple,
      l.Pairwise (fun a b => a.cls.order ≤ b.cls.order) →
      (insertOrdered x l).filter (fun t => t.cls.order == k)
        = l.filter (fun t => t.cls.order == k)
          ++ (if x.cls.order == k then [x] else [])
  | [], _ => by
      by_cases hxk : x.cls.order = k <;> simp [insertOrdered, List.filter_cons, hxk]
  | y :: ys, h => by
      rw [List.pairwise_cons] at h
      obtain ⟨hy, hys⟩ := h
      unfold insertOrdered
      by_cases hxy : x.cls.order < y.cls.order
      · rw [if_pos hxy]
        by_cases hxk : x.cls.order = k
        · have hempty : (y :: ys).filter (fun t => t.cls.order == k) = [] := by
            rw [List.filter_eq_nil_iff]
            intro z hz
            have hk : k < z.cls.order := by
              rcases List.mem_cons.mp hz with rfl | hzys
              · omega
              · have := hy z hzys
                omega
            simp only [beq_iff_eq]
            omega
          simp [hempty, hxk]
        · have hxkb : (x.cls.order == k) = false := by
            simp only [beq_eq_false_iff_ne, ne_eq]
            exact hxk
          simp [hxkb]
      · rw [if_neg hxy]
        rw [List.filter_cons, List.filter_cons]
        cases hyk : (y.cls.order == k) with
        | true =>
            simp only [hyk, if_true]
            rw [insertOrdered_filter_order k x ys hys, List.cons_append]
        | false =>
            simp only [hyk, if_false, Bool.false_eq_true]
            rw [insertOrdered_filter_order k x ys hys]

theorem foldl_insertOrdered_perm (l : List BServiceTuple) :
    ∀ acc, List.Perm (l.foldl (fun acc x => insertOrdered x acc) acc) (acc ++ l) := by
  induction l with
  | nil => intro acc; simp
  | cons x t ih =>
      intro acc
      have h1 := ih (insertOrdered x acc)
      have h2 : List.Perm (insertOrdered x acc ++ t) ((x :: acc) ++ t) :=
        (insertOrdered_perm x acc).append_right t
      have h3 : List.Perm ((x :: acc) ++ t) (acc ++ x :: t) := by
        simpa using List.perm_middle.symm
      exact (h1.trans h2).trans h3

theorem foldl_insertOrdered_pairwise (l : List BServiceTuple) :
    ∀ acc, acc.Pairwise (fun a b => a.cls.order ≤ b.cls.order) →
      (l.foldl (fun acc x => insertOrdered x acc) acc).Pairwise
        (fun a b => a.cls.order ≤ b.cls.order) := by
  induction l with
  | nil => intro acc h; simpa using h
  | cons x t ih =>
      intro acc h
      exact ih (insertOrdered x acc) (insertOrdered_pairwise x acc h)

theorem foldl_insertOrdered_filter (k : Int) (l : List BServiceTuple) :
    ∀ acc, acc.Pairwise (fun a b => a.cls.order ≤ b.cls.order) →
      (l.foldl (fun acc x => insertOrdered x acc) acc).filter (fun t => t.cls.order == k)
        = acc.filter (fun t => t.cls.order == k) ++ l.filter (fun t => t.cls.order == k) := by
  induction l with
  | nil => intro acc h; simp
  | cons x t ih =>
      intro acc h
      rw [List.foldl_cons, ih (insertOrdered x acc) (insertOrdered_pairwise x acc h),
        insertOrdered_filter_order k x acc h, List.filter_cons, List.append_assoc]
      cases hxk : (x.cls.order == k) <;> simp [hxk]

theorem sortByOrder_perm (l : List BServiceTuple) : List.Perm (sortByOrder l) l := by
  simpa using foldl_insertOrdered_perm l []

theorem sortByOrder_pairwise (l : List BServiceTuple) :
    (sortByOrder l).Pairwise (fun a b => a.cls.order ≤ b.cls.order) :=
  foldl_insertOrdered_pairwise l [] (List.Pairwise.nil)

theorem sortByOrder_filter_order (k : Int) (l : List BServiceTuple) :
    (sortByOrder l).filter (fun t => t.cls.order == k)
      = l.filter (fun t => t.cls.order == k) := by
  simpa using foldl_insertOrdered_filter k l [] List.Pairwise.nil

theorem filter_comm_bool {α} (p q : α → Bool) (l : List α) :
    (l.filter p).filter q = (l.filter q).filter p := by
  induction l with
  | nil => rfl
  | cons a t ih => by_cases hp : p a <;> by_cases hq : q a <;> simp [hp, hq, ih]

theorem range_filterMap_getElem {α β} (l : List α) (g : α → Option β) :
    (List.range l.length).filterMap (fun i => l[i]?.bind g) = l.filterMap g := by
  induction l with
  | nil => simp
  | cons a t ih =>
      have hcomp :
          (List.range t.length).filterMap ((fun i => (a :: t)[i]?.bind g) ∘ Nat.succ)
            = t.filterMap g := by
        rw [← ih]
        apply List.filterMap_congr
        intro i _
        simp [Function.comp]
      cases hga : g a <;>
        simp_all [List.range_succ_eq_map, List.filterMap_cons, List.filterMap_map, hga]

theorem filterMap_reverse_eq {α β} (f : α → Option β) (l : List α) :
    l.reverse.filterMap f = (l.filterMap f).reverse := by
  induction l with
  | nil => rfl
  | cons a t ih =>
      rw [List.reverse_cons, List.filterMap_append, ih, List.filterMap_cons]
      cases hga : f a <;> simp [hga]

theorem onCreateCallSeq_eq (ps : List BPluginSpec) :
    onCreateCallSeq ps = ps.filterMap onCreateHook := by
  unfold onCreateCallSeq
  exact range_filterMap_getElem ps onCreateHook

theorem onDestroyCallSeq_eq (ps : List BPluginSpec) :
    onDestroyCallSeq ps = (ps.filterMap onDestroyHook).reverse := by
  unfold onDestroyCallSeq
  rw [filterMap_reverse_eq, range_filterMap_getElem]

/-! ### C1: resolution is idempotent -/

/-- C1: for every container state, definition and optional scope on which
the derived key is not yet cached, the first `getByClass` call creates an
instance and caches it under the key derived from (identifier, scope), and
every subsequent `getByClass` or `resolveByClass` call with the same
definition and scope returns that identical cached instance without
changing the container: exactly one instance per (definition, scope). -/
theorem getByClass_resolution_idempotent (s : ContainerState) (D : BServiceClass)
    (sc : Option String) (h : lookupService s (mkKey D.identifier sc) = none) :
    lookupService (getByClass s D sc).2 (mkKey D.identifier sc)
        = some ⟨D, (getByClass s D sc).1⟩
    ∧ getByClass (getByClass s D sc).2 D sc
        = ((getByClass s D sc).1, (getByClass s D sc).2)
    ∧ resolveByClass (getByClass s D sc).2 D sc
        = ((getByClass s D sc).1, (getByClass s D sc).2) := by
  have hf : s.services.find? (fun p => p.1 == mkKey D.identifier sc) = none := by
    unfold lookupService at h
    cases hx : s.services.find? (fun p => p.1 == mkKey D.identifier sc) with
    | none => rfl
    | some v => rw [hx] at h; simp at h
  have hcache :
      lookupService (getByClass s D sc).2 (mkKey D.identifier sc)
        = some ⟨D, (getByClass s D sc).1⟩ := by
    simp only [getByClass, h]
    unfold lookupService
    rw [find?_append_of_none _ _ _ hf]
    simp [List.find?]
  refine ⟨hcache, ?_, ?_⟩
  · generalize hg : getByClass s D sc = r at hcache ⊢
    simp only [getByClass, hcache]
  · generalize hg : getByClass s D sc = r at hcache ⊢
    simp only [resolveByClass, hcache]

/-- Witness for C1 at a concrete input: the empty container and the
definition `svc` with no scope. -/
theorem getByClass_resolution_idempotent_witness :
    lookupService {} (mkKey exService.identifier none) = none
    ∧ (lookupService (getByClass {} exService none).2 (mkKey exService.identifier none)
          = some ⟨exService, (getByClass {} exService none).1⟩
      ∧ getByClass (getByClass {} exService none).2 exService none
          = ((getByClass {} exService none).1, (getByClass {} exService none).2)
      ∧ resolveByClass (getByClass {} exService none).2 exService none
          = ((getByClass {} exService none).1, (getByClass {} exService none).2)) :=
  ⟨by decide, getByClass_resolution_idempotent {} exService none (by decide)⟩

/-! ### C2: duplicate declaration returns the existing definition -/

/-- C2: if the (sanitised) identifier is already registered to a
definition `D0`, calling `Service` again with that identifier logs a
duplicate-identifier error and returns `D0` itself, leaving both registry
mappings and the declaration counter unchanged. -/
theorem service_duplicate_returns_existing (st : RegistryState)
    (opts : BServiceOptions) (fields : List String) (D0 : BServiceClass)
    (h : (st.serviceIdentifiers.find?
            (fun p => p.1 == sanitizeIdentifier opts.identifier)).map Prod.snd
          = some D0) :
    (Service st opts fields).1 = D0
    ∧ (Service st opts fields).2.serviceIdentifiers = st.serviceIdentifiers
    ∧ (Service st opts fields).2.serviceRegistry = st.serviceRegistry
    ∧ (Service st opts fields).2.counter = st.counter
    ∧ (Service st opts fields).2.errors = st.errors ++
        [sanitizeIdentifier opts.identifier ++
          ": Duplicate identifier found, service identifiers must be unique."] := by
  simp [Service, h]

/-- Witness for C2 at a concrete input: re-declaring `svc` in a registry
that already holds it returns the original definition object. -/
theorem service_duplicate_returns_existing_witness :
    (exRegistry.serviceIdentifiers.find?
        (fun p => p.1 == sanitizeIdentifier "svc")).map Prod.snd = some exService
    ∧ ((Service exRegistry { identifier := "svc" } []).1 = exService
      ∧ (Service exRegistry { identifier := "svc" } []).2.serviceIdentifiers
          = exRegistry.serviceIdentifiers
      ∧ (Service exRegistry { identifier := "svc" } []).2.serviceRegistry
          = exRegistry.serviceRegistry
      ∧ (Service exRegistry { identifier := "svc" } []).2.counter = exRegistry.counter
      ∧ (Service exRegistry { identifier := "svc" } []).2.errors = exRegistry.errors ++
          [sanitizeIdentifier "svc" ++
            ": Duplicate identifier found, service identifiers must be unique."]) :=
  ⟨by decide, service_duplicate_returns_existing exRegistry { identifier := "svc" } []
      exService (by decide)⟩

/-! ### C3: invokeLinear runs ascending by declared order -/

/-- C3: `invokeLinear` calls the method on exactly the live instances
that define it (a permutation of the eligible list), in a sequence that
is ascending in the definition's `order` and stable (for every order
value, the eligible instances with that order run in their original
declaration order), each call awaited before the next; on the spec's
example of orders [5, -1000, 0] the execution sequence is the instances
with orders [-1000, 0, 5], i.e. instance ids [2, 3, 1]. -/
theorem invokeLinear_ascending_stable (services : List (String × BServiceTuple))
    (name : String) :
    (linearCallOrder services name).Pairwise (fun a b => a.cls.order ≤ b.cls.order)
    ∧ List.Perm (linearCallOrder services name)
        ((services.map Prod.snd).filter (hasMethod name))
    ∧ (∀ k : Int,
        (linearCallOrder services name).filter (fun t => t.cls.order == k)
          = ((services.map Prod.snd).filter (hasMethod name)).filter
              (fun t => t.cls.order == k))
    ∧ invokeLinear exServices "m" = [2, 3, 1] := by
  refine ⟨?_, ?_, ?_, by decide⟩
  · exact List.Pairwise.sublist (List.filter_sublist _) (sortByOrder_pairwise _)
  · exact (sortByOrder_perm _).filter _
  · intro k
    unfold linearCallOrder
    rw [filter_comm_bool, sortByOrder_filter_order, filter_comm_bool]

/-! ### C4: plugin hook ordering -/

/-- C4: on instance creation the container fires `onCreate` on every
plugin that defines it in registration order (index 0 upward through
`pluginArray`), and on `destroy()` it fires `onDestroy` in reverse
registration order; when every plugin defines both hooks the destroy
sequence is exactly the reverse of the create sequence. -/
theorem plugin_hooks_ordered_symmetric (ps : List BPluginSpec)
    (h : ∀ p ∈ ps, p.hasOnCreate = true ∧ p.hasOnDestroy = true) :
    onCreateCallSeq ps = ps.filterMap onCreateHook
    ∧ onDestroyCallSeq ps = (ps.filterMap onDestroyHook).reverse
    ∧ onDestroyCallSeq ps = (onCreateCallSeq ps).reverse := by
  refine ⟨onCreateCallSeq_eq ps, onDestroyCallSeq_eq ps, ?_⟩
  rw [onCreateCallSeq_eq, onDestroyCallSeq_eq]
  congr 1
  apply List.filterMap_congr
  intro p hp
  rw [onCreateHook, onDestroyHook, if_pos (h p hp).1, if_pos (h p hp).2]

/-- Witness for C4 at a concrete input: three plugins, all hooks present. -/
theorem plugin_hooks_ordered_symmetric_witness :
    (∀ p ∈ exPlugins, p.hasOnCreate = true ∧ p.hasOnDestroy = true)
    ∧ (onCreateCallSeq exPlugins = exPlugins.filterMap onCreateHook
      ∧ onDestroyCallSeq exPlugins = (exPlugins.filterMap onDestroyHook).reverse
      ∧ onDestroyCallSeq exPlugins = (onCreateCallSeq exPlugins).reverse) :=
  ⟨by decide, plugin_hooks_ordered_symmetric exPlugins (by decide)⟩

/-! ### C5 and C6: retry behaviour -/

theorem retryTraceAux_stop (o : BRetryOptions) (counter delay fuel : Nat)
    (h : retryStopsNow o counter = true) :
    retryTraceAux o counter delay (fuel + 1) = (1, [], .rejected) := by
  simp [retryTraceAux, h]

theorem retryTraceAux_step (o : BRetryOptions) (counter delay fuel : Nat)
    (h : retryStopsNow o counter = false) :
    retryTraceAux o counter delay (fuel + 1)
      = ((retryTraceAux o (counter + 1) (retryNextDelay o delay) fuel).1 + 1,
         retryNextDelay o delay
           :: (retryTraceAux o (counter + 1) (retryNextDelay o delay) fuel).2.1,
         (retryTraceAux o (counter + 1) (retryNextDelay o delay) fuel).2.2) := by
  simp [retryTraceAux, h]

theorem retryTraceAux_unlimited (fuel : Nat) :
    ∀ c d : Nat, (retryTraceAux exRetryUnlimited c d fuel).1 = fuel
      ∧ (retryTraceAux exRetryUnlimited c d fuel).2.2 = .stillRunning := by
  induction fuel with
  | zero => intro c d; exact ⟨rfl, rfl⟩
  | succ n ih =>
      intro c d
      have hstop : retryStopsNow exRetryUnlimited c = false := by
        simp [retryStopsNow, exRetryUnlimited]
      rw [retryTraceAux_step _ _ _ _ hstop]
      exact ⟨by simp [(ih _ _).1], (ih _ _).2⟩

/-- C5: with shots = 3, interval = 100 and the linear curve, a call to the
wrapped method whose underlying function always rejects invokes the
underlying function exactly 3 times, waiting the configured 100ms
interval before each of the two retries, and then rejects to the caller;
with shots = 0 the guard never fires, so every observed attempt schedules
another one (retries continue without limit, one invocation per unit of
fuel, never settling into rejection). -/
theorem retry_linear_three_shots (fuel : Nat) (h : 3 ≤ fuel) :
    retryTrace exRetryLinear fuel = (3, [100, 100], .rejected)
    ∧ (∀ f : Nat, (retryTrace exRetryUnlimited f).1 = f
        ∧ (retryTrace exRetryUnlimited f).2.2 = .stillRunning) := by
  constructor
  · obtain ⟨m, rfl⟩ : ∃ m, fuel = m + 3 := ⟨fuel - 3, by omega⟩
    have h3 : ∀ f : Nat, retryTraceAux exRetryLinear 3 100 (f + 1) = (1, [], .rejected) :=
      fun f => retryTraceAux_stop _ _ _ _ (by decide)
    have h2 : ∀ f : Nat,
        retryTraceAux exRetryLinear 2 100 (f + 1 + 1) = (2, [100], .rejected) := by
      intro f
      rw [retryTraceAux_step _ _ _ _ (by decide)]
      have hd : retryNextDelay exRetryLinear 100 = 100 := rfl
      rw [hd, h3 f]
    have h1 : ∀ f : Nat,
        retryTraceAux exRetryLinear 1 100 (f + 1 + 1 + 1) = (3, [100, 100], .rejected) := by
      intro f
      rw [retryTraceAux_step _ _ _ _ (by decide)]
      have hd : retryNextDelay exRetryLinear 100 = 100 := rfl
      rw [hd, h2 f]
    have hm : m + 3 = m + 1 + 1 + 1 := by omega
    unfold retryTrace
    rw [show exRetryLinear.interval = 100 from rfl, hm, h1 m]
  · intro f
    exact retryTraceAux_unlimited f 1 exRetryUnlimited.interval

/-- Witness for C5 at the concrete fuel bound 3. -/
theorem retry_linear_three_shots_witness :
    3 ≤ 3
    ∧ (retryTrace exRetryLinear 3 = (3, [100, 100], .rejected)
      ∧ (∀ f : Nat, (retryTrace exRetryUnlimited f).1 = f
          ∧ (retryTrace exRetryUnlimited f).2.2 = .stillRunning)) :=
  ⟨by decide, retry_linear_three_shots 3 (by decide)⟩

/-- C6 (code bug): with retryCurve = log, interval = 100 and
maximumDelay = 300, the code doubles the delay inside the catch block
before scheduling every retry, including the first, so the successive
delays of an always-rejecting method are 200, 300, 300, 300, ... — the
first retry does not wait the configured interval of 100 claimed by the
spec and by the decorator's own documentation. -/
theorem retry_log_first_delay_doubled :
    retryTrace exRetryLog 5 = (5, [200, 300, 300, 300, 300], .stillRunning)
    ∧ (retryTrace exRetryLog 5).2.1.head? = some 200
    ∧ (retryTrace exRetryLog 5).2.1 ≠ [100, 200, 300, 300, 300] := by
  decide

/-! ### C7: signal write event shape -/

/-- C7 (code bug): writing a signal-intercepted field stores the new
value in the vault and dispatches exactly one change event on the
instance channel and one identical event on the container channel, with
`type` the fixed sentinel and `isSimilar` true exactly when the new value
equals the previous one (1 over 1 gives true, 2 over 1 gives false) — but
the dispatched event carries no `instance` member, although the declared
`BNotifyEvent` type (src/events.ts) and the claim require one. -/
theorem signal_write_event_shape :
    (signalSet "Svc" exSignalState "x" 1).containerEvents.length = 1
    ∧ (signalSet "Svc" exSignalState "x" 1).instanceEvents.length = 1
    ∧ (signalSet "Svc" exSignalState "x" 1).containerEvents
        = (signalSet "Svc" exSignalState "x" 1).instanceEvents
    ∧ ((signalSet "Svc" exSignalState "x" 1).containerEvents.map BNotifyEvent.isSimilar)
        = [true]
    ∧ signalGet (signalSet "Svc" exSignalState "x" 1) "x" = some 1
    ∧ ((signalSet "Svc" exSignalState "x" 2).containerEvents.map BNotifyEvent.isSimilar)
        = [false]
    ∧ signalGet (signalSet "Svc" exSignalState "x" 2) "x" = some 2
    ∧ ((signalSet "Svc" exSignalState "x" 2).containerEvents.map BNotifyEvent.type)
        = [NotifyEventId]
    ∧ ((signalSet "Svc" exSignalState "x" 2).containerEvents.map
         BNotifyEvent.propertyName) = ["x"]
    ∧ (∀ e ∈ (signalSet "Svc" exSignalState "x" 1).containerEvents,
        eventHasDeclaredShape e = false)
    ∧ (∀ e ∈ (signalSet "Svc" exSignalState "x" 2).containerEvents,
        eventHasDeclaredShape e = false) := by
  decide

/-! ### C8: cache wrapper and concurrent calls -/

theorem find?_map_replace (l : CacheStore) (k : String) (e : CacheEntry) :
    ((l.map (fun p => if p.1 == k then (k, e) else p)).find? (fun p => p.1 == k))
      = ((l.find? (fun p => p.1 == k)).map (fun _ => (k, e))) := by
  induction l with
  | nil => rfl
  | cons a t ih =>
      cases hb : a.1 == k with
      | true =>
          simp only [List.map_cons, hb, List.find?_cons]
          simp
      | false =>
          simp only [List.map_cons, List.find?_cons, hb, Bool.false_eq_true, if_false]
          exact ih

theorem cacheLookup_after_put (st : CacheStore) (k : String) (e : CacheEntry)
    (m : Nat) (hm : m < e.expiresat) :
    cacheLookup (cachePut st k e) k e.lifespan m = some e.body := by
  unfold cacheLookup cachePut
  cases hf : st.find? (fun p => p.1 == k) with
  | none =>
      simp only [hf, Option.isSome_none, Bool.false_eq_true, if_false]
      rw [find?_append_of_none _ _ _ hf]
      simp [List.find?, hm]
  | some q =>
      simp only [hf, Option.isSome_some, if_true]
      rw [find?_map_replace, hf]
      simp [hm]

/-- C8 counterexample: on an empty cache, two concurrent calls to the
wrapped method — call B performing its lookup while call A's underlying
invocation is pending — each miss the cache and each invoke the
underlying function: two underlying invocations, not the single one the
claim asserts. -/
theorem cache_two_concurrent_calls_counterexample :
    underlyingInvocations
        (runSched 0 exCacheCfg exCacheCfg ⟨[], .toLookup, .toLookup⟩
          [.A, .B, .A, .B]) = 2
    ∧ underlyingInvocations
        (runSched 0 exCacheCfg exCacheCfg ⟨[], .toLookup, .toLookup⟩
          [.A, .B, .A, .B]) ≠ 1 := by
  decide

/-- C8 (amended): `replaceFunction` keeps no in-flight registry, so two
concurrent calls whose lookups both happen before either result is
stored (every schedule in which B starts while A is pending) each invoke
the underlying function — exactly two underlying invocations — and each
caller resolves with its own invocation's result.  Duplicate work is
avoided only through the persistent cache: once a completed call has
stored its result, a later call whose lookup happens within the entry's
lifespan resolves from the cache without invoking the underlying
function. -/
theorem cache_concurrent_calls_no_coalescing (store : CacheStore)
    (cfgA cfgB : CallCfg) (now : Nat) (sched : List WhichCall)
    (hA : cacheLookup store cfgA.key cfgA.lifespan now = none)
    (hB : cacheLookup store cfgB.key cfgB.lifespan now = none)
    (hsched : sched = [.A, .B, .A, .B] ∨ sched = [.A, .B, .B, .A]) :
    underlyingInvocations (runSched now cfgA cfgB ⟨store, .toLookup, .toLookup⟩ sched) = 2
    ∧ resolvedValue (runSched now cfgA cfgB ⟨store, .toLookup, .toLookup⟩ sched).a
        = some cfgA.result
    ∧ resolvedValue (runSched now cfgA cfgB ⟨store, .toLookup, .toLookup⟩ sched).b
        = some cfgB.result
    ∧ (∀ (st : CacheStore) (cfg : CallCfg) (n m : Nat), m < n + cfg.lifespan →
        stepCall m cfg
            (cachePut st cfg.key ⟨cfg.result, n + cfg.lifespan, cfg.lifespan⟩) .toLookup
          = (.finished false cfg.result,
             cachePut st cfg.key ⟨cfg.result, n + cfg.lifespan, cfg.lifespan⟩)) := by
  have httl : ∀ (st : CacheStore) (cfg : CallCfg) (n m : Nat), m < n + cfg.lifespan →
      stepCall m cfg
          (cachePut st cfg.key ⟨cfg.result, n + cfg.lifespan, cfg.lifespan⟩) .toLookup
        = (.finished false cfg.result,
           cachePut st cfg.key ⟨cfg.result, n + cfg.lifespan, cfg.lifespan⟩) := by
    intro st cfg n m hm
    have hl := cacheLookup_after_put st cfg.key
      ⟨cfg.result, n + cfg.lifespan, cfg.lifespan⟩ m hm
    simp only [stepCall, hl]
  rcases hsched with rfl | rfl
  · refine ⟨?_, ?_, ?_, httl⟩ <;>
      simp [runSched, stepSched, stepCall, hA, hB, underlyingInvocations,
        invokedUnderlying, resolvedValue]
  · refine ⟨?_, ?_, ?_, httl⟩ <;>
      simp [runSched, stepSched, stepCall, hA, hB, underlyingInvocations,
        invokedUnderlying, resolvedValue]

/-- Witness for the amended C8 at a concrete input: empty cache, both
calls for the same key, schedule A, B, A, B. -/
theorem cache_concurrent_calls_no_coalescing_witness :
    cacheLookup [] exCacheCfg.key exCacheCfg.lifespan 0 = none
    ∧ ([WhichCall.A, .B, .A, .B] = [WhichCall.A, .B, .A, .B]
        ∨ [WhichCall.A, .B, .A, .B] = [WhichCall.A, .B, .B, .A])
    ∧ (underlyingInvocations
          (runSched 0 exCacheCfg exCacheCfg ⟨[], .toLookup, .toLookup⟩
            [.A, .B, .A, .B]) = 2
      ∧ resolvedValue
          (runSched 0 exCacheCfg exCacheCfg ⟨[], .toLookup, .toLookup⟩
            [.A, .B, .A, .B]).a = some exCacheCfg.result
      ∧ resolvedValue
          (runSched 0 exCacheCfg exCacheCfg ⟨[], .toLookup, .toLookup⟩
            [.A, .B, .A, .B]).b = some exCacheCfg.result
      ∧ (∀ (st : CacheStore) (cfg : CallCfg) (n m : Nat), m < n + cfg.lifespan →
          stepCall m cfg
              (cachePut st cfg.key ⟨cfg.result, n + cfg.lifespan, cfg.lifespan⟩) .toLookup
            = (.finished false cfg.result,
               cachePut st cfg.key ⟨cfg.result, n + cfg.lifespan, cfg.lifespan⟩))) :=
  ⟨by decide, Or.inl rfl,
    cache_concurrent_calls_no_coalescing [] exCacheCfg exCacheCfg 0
      [.A, .B, .A, .B] (by decide) (by decide) (Or.inl rfl)⟩

/-! ### C9: reset semantics -/

theorem Heap.get_alloc_old (h : Heap) (xs : List Int) (a : Nat)
    (ha : a < h.arrays.length) : (h.alloc xs).2.get a = h.get a := by
  unfold Heap.alloc Heap.get
  simp only
  rw [List.getD_eq_getElem?_getD, List.getD_eq_getElem?_getD,
    List.getElem?_append_left ha]

theorem Heap.get_alloc_new (h : Heap) (xs : List Int) :
    (h.alloc xs).2.get (h.alloc xs).1 = xs := by
  unfold Heap.alloc Heap.get
  simp only
  rw [List.getD_eq_getElem?_getD, List.getElem?_concat_length]
  rfl

theorem structuredClone_extends (h : Heap) (v : JsVal) :
    h.arrays.length ≤ (structuredCloneVal h v).2.arrays.length
    ∧ (∀ a, a < h.arrays.length → (structuredCloneVal h v).2.get a = h.get a) := by
  cases v with
  | num n => exact ⟨le_refl _, fun a _ => rfl⟩
  | undefVal => exact ⟨le_refl _, fun a _ => rfl⟩
  | arrRef b =>
      constructor
      · simp [structuredCloneVal, Heap.alloc]
      · intro a ha
        exact Heap.get_alloc_old h _ a ha

theorem structuredClone_observe (h : Heap) (v : JsVal) :
    observeVal (structuredCloneVal h v).2 (structuredCloneVal h v).1 = observeVal h v
    ∧ valWF (structuredCloneVal h v).2 (structuredCloneVal h v).1 = true := by
  cases v with
  | num n => exact ⟨rfl, rfl⟩
  | undefVal => exact ⟨rfl, rfl⟩
  | arrRef b =>
      constructor
      · show observeVal (h.alloc (h.get b)).2 (.arrRef (h.alloc (h.get b)).1)
            = observeVal h (.arrRef b)
        simp [observeVal, Heap.get_alloc_new]
      · simp [valWF, structuredCloneVal, Heap.alloc]

theorem observeVal_extends (h h' : Heap) (v : JsVal)
    (hx : ∀ a, a < h.arrays.length → h'.get a = h.get a)
    (hv : valWF h v = true) : observeVal h' v = observeVal h v := by
  cases v with
  | num n => rfl
  | undefVal => rfl
  | arrRef a =>
      have ha : a < h.arrays.length := by simpa [valWF] using hv
      simp [observeVal, hx a ha]

theorem valWF_extends (h h' : Heap) (v : JsVal)
    (hlen : h.arrays.length ≤ h'.arrays.length) (hv : valWF h v = true) :
    valWF h' v = true := by
  cases v with
  | num n => rfl
  | undefVal => rfl
  | arrRef a =>
      simp only [valWF, decide_eq_true_eq] at hv ⊢
      omega

theorem lookupVal_wf (bp : List (String × JsVal)) (h : Heap) (k : String)
    (hwf : bp.all (fun p => valWF h p.2) = true) :
    valWF h (lookupVal bp k) = true := by
  unfold lookupVal
  cases hf : bp.find? (fun p => p.1 == k) with
  | none => rfl
  | some p =>
      have hmem := List.mem_of_find?_eq_some hf
      have hv := (List.all_eq_true.mp hwf) p hmem
      simpa using hv

theorem allWF_extends (bp : List (String × JsVal)) (h h' : Heap)
    (hlen : h.arrays.length ≤ h'.arrays.length)
    (hwf : bp.all (fun p => valWF h p.2) = true) :
    bp.all (fun p => valWF h' p.2) = true := by
  rw [List.all_eq_true] at hwf ⊢
  intro p hp
  exact valWF_extends h h' p.2 hlen (hwf p hp)

theorem resetKeys_spec (bp : List (String × JsVal)) :
    ∀ (own : List (String × JsVal)) (h : Heap),
      bp.all (fun p => valWF h p.2) = true →
      (h.arrays.length ≤ (resetKeys bp own h).2.arrays.length
        ∧ (∀ a, a < h.arrays.length → (resetKeys bp own h).2.get a = h.get a))
      ∧ (resetKeys bp own h).1.map Prod.fst = own.map Prod.fst
      ∧ (∀ k, (own.find? (fun p => p.1 == k)).isSome = true →
          ∃ w, (resetKeys bp own h).1.find? (fun p => p.1 == k) = some (k, w)
            ∧ observeVal (resetKeys bp own h).2 w = observeVal h (lookupVal bp k))
  | [], h, _ => by
      refine ⟨⟨le_refl _, fun a _ => rfl⟩, rfl, ?_⟩
      intro k hk
      simp [List.find?] at hk
  | (k₀, v₀) :: rest, h, hwf => by
      have hc := structuredClone_extends h (lookupVal bp k₀)
      have hwf1 := allWF_extends bp h (structuredCloneVal h (lookupVal bp k₀)).2 hc.1 hwf
      have ihs := resetKeys_spec bp rest (structuredCloneVal h (lookupVal bp k₀)).2 hwf1
      have hres : resetKeys bp ((k₀, v₀) :: rest) h
          = ((k₀, (structuredCloneVal h (lookupVal bp k₀)).1)
              :: (resetKeys bp rest (structuredCloneVal h (lookupVal bp k₀)).2).1,
             (resetKeys bp rest (structuredCloneVal h (lookupVal bp k₀)).2).2) := rfl
      rw [hres]
      refine ⟨⟨le_trans hc.1 ihs.1.1, ?_⟩, ?_, ?_⟩
      · intro a ha
        rw [ihs.1.2 a (lt_of_lt_of_le ha hc.1), hc.2 a ha]
      · simp only [List.map_cons, ihs.2.1]
      · intro k hk
        cases hb : k₀ == k with
        | true =>
            have hk0 : k₀ = k := by simpa using hb
            refine ⟨(structuredCloneVal h (lookupVal bp k₀)).1, ?_, ?_⟩
            · simp [List.find?_cons, hb, hk0]
            · have hobs := structuredClone_observe h (lookupVal bp k₀)
              rw [observeVal_extends _ _ _ ihs.1.2 hobs.2, hobs.1, hk0]
        | false =>
            have hk' : (rest.find? (fun p => p.1 == k)).isSome = true := by
              simpa [List.find?_cons, hb] using hk
            obtain ⟨w, hfind, hobsw⟩ := ihs.2.2 k hk'
            refine ⟨w, ?_, ?_⟩
            · simp [List.find?_cons, hb, hfind]
            · rw [hobsw,
                observeVal_extends _ _ _ hc.2 (lookupVal_wf bp h k hwf)]

theorem find?_key_isSome_eq (l₁ : List (String × JsVal)) (k : String) :
    ∀ l₂ : List (String × JsVal), l₁.map Prod.fst = l₂.map Prod.fst →
      (l₁.find? (fun p => p.1 == k)).isSome = (l₂.find? (fun p => p.1 == k)).isSome := by
  induction l₁ with
  | nil =>
      intro l₂ h
      cases l₂ with
      | nil => rfl
      | cons b t => simp at h
  | cons a t ih =>
      intro l₂ h
      cases l₂ with
      | nil => simp at h
      | cons b t₂ =>
          simp only [List.map_cons, List.cons.injEq] at h
          obtain ⟨h1, h2⟩ := h
          simp only [List.find?_cons, h1]
          cases hb : b.1 == k with
          | true => rfl
          | false => exact ih t₂ h2

/-- C9 counterexample: the blueprint field `arr` defaults to the array
[1]; pushing 2 onto it in place (never reassigning the field) and then
calling `reset` leaves the field observing [1, 2], not a fresh copy of
the declared default [1] — `Object.keys(instance)` enumerates own
enumerable properties only, and a never-assigned field has none (the
in-place mutation even corrupted the blueprint's default array). -/
theorem reset_inplace_mutation_counterexample :
    observeBlueprint exResetState "arr" = .arr [1]
    ∧ observeField (resetInstance (pushToField exResetState "arr" 2)) "arr" = .arr [1, 2]
    ∧ observeField (resetInstance (pushToField exResetState "arr" 2)) "arr" ≠ .arr [1] := by
  decide

/-- C9 (amended): after `instance.reset()` every field that exists as an
own enumerable property of the instance (i.e. was assigned at least once
— exactly what `Object.keys(instance)` enumerates) observes a fresh deep
copy of the blueprint's current value for its key; a field never
assigned — including one only mutated in place — is untouched by reset
and keeps its observed value; and the container's `reset(filter)`
applies the instance reset to exactly the instances matching the
predicate. -/
theorem reset_restores_own_fields (st : InstanceState) (k : String)
    (hwf : st.blueprint.all (fun p => valWF st.heap p.2) = true) :
    ((st.own.find? (fun p => p.1 == k)).isSome = true →
      observeField (resetInstance st) k = observeBlueprint st k)
    ∧ ((st.own.find? (fun p => p.1 == k)).isSome = false →
      observeField (resetInstance st) k = observeField st k)
    ∧ (∀ (instances : List (BServiceClass × InstanceState))
        (f : BServiceClass → InstanceState → Bool) (i : Nat)
        (p : BServiceClass × InstanceState), instances[i]? = some p →
        (containerReset instances (some f))[i]?
          = some (if f p.1 p.2 then (p.1, resetInstance p.2) else p)) := by
  have S := resetKeys_spec st.blueprint st.own st.heap hwf
  refine ⟨?_, ?_, ?_⟩
  · intro hk
    obtain ⟨w, hfind, hobs⟩ := S.2.2 k hk
    unfold observeField readField resetInstance observeBlueprint
    simp only [hfind, Option.map_some, Option.map_some']
    exact hobs
  · intro hk
    have hkeys := find?_key_isSome_eq
      (resetKeys st.blueprint st.own st.heap).1 k st.own S.2.1
    have hnone : ((resetKeys st.blueprint st.own st.heap).1.find?
        (fun p => p.1 == k)) = none := by
      rw [← Option.not_isSome_iff_eq_none]
      rw [hkeys, hk]
      simp
    have hnone0 : (st.own.find? (fun p => p.1 == k)) = none := by
      rw [← Option.not_isSome_iff_eq_none, hk]
      simp
    unfold observeField readField resetInstance
    simp only [hnone, hnone0, Option.map_none, Option.map_none']
    exact observeVal_extends _ _ _ S.1.2 (lookupVal_wf st.blueprint st.heap k hwf)
  · intro instances f i p hp
    unfold containerReset
    rw [List.getElem?_map, hp]
    rfl

/-- Witness for the amended C9 at a concrete input: an instance with an
assigned own field `n` over a well-formed blueprint. -/
theorem reset_restores_own_fields_witness :
    exResetAssigned.blueprint.all (fun p => valWF exResetAssigned.heap p.2) = true
    ∧ (((exResetAssigned.own.find? (fun p => p.1 == "n")).isSome = true →
        observeField (resetInstance exResetAssigned) "n"
          = observeBlueprint exResetAssigned "n")
      ∧ ((exResetAssigned.own.find? (fun p => p.1 == "n")).isSome = false →
        observeField (resetInstance exResetAssigned) "n"
          = observeField exResetAssigned "n")
      ∧ (∀ (instances : List (BServiceClass × InstanceState))
          (f : BServiceClass → InstanceState → Bool) (i : Nat)
          (p : BServiceClass × InstanceState), instances[i]? = some p →
          (containerReset instances (some f))[i]?
            = some (if f p.1 p.2 then (p.1, resetInstance p.2) else p))) :=
  ⟨by decide, reset_restores_own_fields exResetAssigned "n" (by decide)⟩

/-! ### C10: unsubscribe never removes the listener -/

theorem find?_map_update (l : List (String × List Nat)) (type : String) (x : Nat) :
    ((l.map (fun p => if p.1 == type then (p.1, p.2 ++ [x]) else p)).find?
        (fun p => p.1 == type))
      = (l.find? (fun p => p.1 == type)).map (fun p => (p.1, p.2 ++ [x])) := by
  induction l with
  | nil => rfl
  | cons a t ih =>
      cases hb : a.1 == type with
      | true =>
          simp only [List.map_cons, hb, List.find?_cons]
          simp [hb]
      | false =>
          simp only [List.map_cons, List.find?_cons, hb, Bool.false_eq_true, if_false]
          exact ih

theorem getListeners_busSubscribe (bst : EventBusState) (type : String) (l : Nat) :
    getListeners (busSubscribe bst type l) type = getListeners bst type ++ [l] := by
  obtain ⟨buckets⟩ := bst
  unfold busSubscribe getListeners
  cases hf : buckets.find? (fun p => p.1 == type) with
  | none =>
      simp only [hf]
      rw [find?_append_of_none _ _ _ hf]
      simp [List.find?]
  | some q =>
      simp only [hf]
      rw [find?_map_update, hf]
      simp

/-- C10: the unsubscribe function returned by subscribe — on the
container's unary bus and on the keyed event bus alike — never removes
the listener: calling it only wraps the removal logic in a function
handed to Promise.resolve without invoking it, leaving the bus state
unchanged, so every subsequent dispatch still invokes the listener. -/
theorem unsubscribe_never_removes (st : UnaryBusState) (bst : EventBusState)
    (type : String) (l : Nat) :
    unaryUnsubscribe l (unarySubscribe st l) = unarySubscribe st l
    ∧ l ∈ unaryDispatch (unaryUnsubscribe l (unarySubscribe st l))
    ∧ busUnsubscribe type l (busSubscribe bst type l) = busSubscribe bst type l
    ∧ l ∈ busDispatch (busUnsubscribe type l (busSubscribe bst type l)) type := by
  refine ⟨rfl, ?_, rfl, ?_⟩
  · simp [unaryUnsubscribe, unarySubscribe, unaryDispatch]
  · show l ∈ busDispatch (busSubscribe bst type l) type
    unfold busDispatch
    rw [getListeners_busSubscribe]
    simp

end Beatle
